import Mathlib

/-!
Verification of the ae-gpcam coordinate-transform engine, snapping
algorithm and adaptive-scan control loop.

The definitions below are shallow embeddings of the Python source:

* `sample_geometry.py` : `StripInfo`, `single_strip_transform_factory`
  (`to_bl_coords` / `to_data_coords`), `strip_list_transform_factory`
  (`strip_list_forward`) and `snap_factory` (`snapFuel`).
* `bluesky_config/ipython/profile_default/startup/01-adaptive.py` :
  `adaptive_plan` / `gp_inner_plan` (the queue drain and the
  move/measure/get loop, with the move/measure collaborators abstracted
  to a trace).

Python float arithmetic is modelled by exact arithmetic: `ℚ` for all
data that only ever meets ring operations and comparisons, `ℝ` where the
source applies `cos`/`sin`/`hypot`/`arctan2`.  Code paths that `raise`
are modelled by `Option` (`none` = the call raises).
-/

/-- Embedding of `np.min` on a nonempty array (`0` as a junk default for
the empty list, on which the source call would itself raise). -/
def listMin : List ℚ → ℚ
  | [] => 0
  | x :: xs => xs.foldl min x

/-- Embedding of `np.max` on a nonempty array (`0` as a junk default for
the empty list, on which the source call would itself raise). -/
def listMax : List ℚ → ℚ
  | [] => 0
  | x :: xs => xs.foldl max x

/-- Embedding of `np.interp(v, xp, fp)`: piecewise-linear interpolation
with clipping outside the table, assuming `xp` is increasing (numpy's
documented precondition).  Mismatched or empty tables give a junk `0`
(the source would raise or return garbage there; all lemmas below carry
the length hypothesis). -/
def interp {α : Type} [LinearOrderedField α] (v : α) : List α → List α → α
  | x1 :: x2 :: xs, y1 :: y2 :: ys =>
    if v ≤ x1 then y1
    else if v ≤ x2 then y1 + (v - x1) * (y2 - y1) / (x2 - x1)
    else interp v (x2 :: xs) (y2 :: ys)
  | [_], y :: _ => y
  | _, _ => 0

/-- Container for strip information (`sample_geometry.StripInfo`). -/
structure StripInfo where
  temperature : ℤ
  annealing_time : ℤ
  ti_fractions : List ℚ
  reference_x : ℚ
  reference_y : ℚ
  start_distance : ℚ
  angle : ℚ
  thickness : ℤ
deriving DecidableEq

/-- `StripInfo.ti_min` property: `min(self.ti_fractions)`. -/
def StripInfo.ti_min (s : StripInfo) : ℚ := listMin s.ti_fractions

/-- `StripInfo.ti_max` property: `max(self.ti_fractions)`. -/
def StripInfo.ti_max (s : StripInfo) : ℚ := listMax s.ti_fractions

/-- `cell_positions = np.arange(len(ti_fractions)) * cell_size`. -/
def cell_positions (n : ℕ) (cs : ℚ) : List ℚ :=
  (List.range n).map (fun (i : ℕ) => (i : ℚ) * cs)

theorem cell_positions_length (n : ℕ) (cs : ℚ) :
    (cell_positions n cs).length = n := by
  rw [cell_positions, List.length_map, List.length_range]

theorem cell_positions_succ (n : ℕ) (cs : ℚ) :
    cell_positions (n + 1) cs =
      0 :: (List.range n).map (fun (i : ℕ) => ((i : ℚ) + 1) * cs) := by
  rw [cell_positions, List.range_succ_eq_map, List.map_cons, List.map_map]
  refine congrArg₂ _ (by norm_num) (List.map_congr_left ?_)
  intro i _
  simp only [Function.comp_apply, Nat.succ_eq_add_one]
  push_cast
  ring

theorem cell_positions_chain (n : ℕ) (cs : ℚ) (hcs : 0 < cs) :
    List.Chain' (· < ·) (cell_positions n cs) := by
  have hp : (List.range n).Pairwise (· < ·) := List.pairwise_lt_range n
  rw [cell_positions]
  refine List.Pairwise.chain' (List.Pairwise.map _ ?_ hp)
  intro a b hab
  exact (mul_lt_mul_right hcs).2 (by exact_mod_cast hab)

theorem foldl_min_of_forall (x : ℚ) (xs : List ℚ) (h : ∀ y ∈ xs, x ≤ y) :
    xs.foldl min x = x := by
  induction xs with
  | nil => rfl
  | cons a as ih =>
    rw [List.foldl_cons, min_eq_left (h a (by simp))]
    exact ih (fun y hy => h y (by simp [hy]))

theorem listMin_eq_head (x : ℚ) (xs : List ℚ)
    (hc : List.Chain' (· < ·) (x :: xs)) : listMin (x :: xs) = x := by
  have hp := List.chain'_iff_pairwise.1 hc
  rw [listMin]
  exact foldl_min_of_forall x xs (fun y hy => ((List.pairwise_cons.1 hp).1 y hy).le)

theorem listMax_eq_getLastD (xs : List ℚ) : ∀ (x : ℚ),
    List.Chain' (· < ·) (x :: xs) → listMax (x :: xs) = xs.getLastD x := by
  induction xs with
  | nil => intro x _; rfl
  | cons a as ih =>
    intro x hc
    have hxa : x < a := (List.chain'_cons.1 hc).1
    have : listMax (x :: a :: as) = listMax (a :: as) := by
      rw [listMax, listMax, List.foldl_cons, max_eq_right hxa.le]
    rw [this, ih a (List.chain'_cons.1 hc).2, List.getLastD_cons]

theorem chain_le_getLastD (xs : List ℚ) : ∀ (x : ℚ),
    List.Chain' (· < ·) (x :: xs) → x ≤ xs.getLastD x := by
  induction xs with
  | nil => intro x _; exact le_refl x
  | cons a as ih =>
    intro x hc
    rw [List.getLastD_cons]
    exact ((List.chain'_cons.1 hc).1.le).trans (ih a (List.chain'_cons.1 hc).2)

theorem chain_lt_getLastD (xs : List ℚ) (x : ℚ) (hne : xs ≠ [])
    (hc : List.Chain' (· < ·) (x :: xs)) : x < xs.getLastD x := by
  match xs, hne with
  | a :: as, _ =>
    rw [List.getLastD_cons]
    exact lt_of_lt_of_le (List.chain'_cons.1 hc).1
      (chain_le_getLastD as a (List.chain'_cons.1 hc).2)

theorem listMin_le_mem (xs : List ℚ) : ∀ (x a : ℚ), a ∈ x :: xs → xs.foldl min x ≤ a := by
  induction xs with
  | nil =>
    intro x a ha
    rw [List.foldl_nil]
    rcases List.mem_cons.1 ha with h | h
    · exact le_of_eq h.symm
    · simp at h
  | cons b bs ih =>
    intro x a ha
    rw [List.foldl_cons]
    have hself : bs.foldl min (min x b) ≤ min x b :=
      ih (min x b) (min x b) (List.mem_cons_self _ _)
    rcases List.mem_cons.1 ha with h | h
    · exact hself.trans (by rw [h]; exact min_le_left x b)
    · rcases List.mem_cons.1 h with h' | h'
      · exact hself.trans (by rw [h']; exact min_le_right x b)
      · exact ih (min x b) a (List.mem_cons_of_mem _ h')

theorem mem_le_listMax (xs : List ℚ) : ∀ (x a : ℚ), a ∈ x :: xs → a ≤ xs.foldl max x := by
  induction xs with
  | nil =>
    intro x a ha
    rw [List.foldl_nil]
    rcases List.mem_cons.1 ha with h | h
    · exact le_of_eq h
    · simp at h
  | cons b bs ih =>
    intro x a ha
    rw [List.foldl_cons]
    have hself : max x b ≤ bs.foldl max (max x b) :=
      ih (max x b) (max x b) (List.mem_cons_self _ _)
    rcases List.mem_cons.1 ha with h | h
    · exact le_trans (by rw [h]; exact le_max_left x b) hself
    · rcases List.mem_cons.1 h with h' | h'
      · exact le_trans (by rw [h']; exact le_max_right x b) hself
      · exact ih (max x b) a (List.mem_cons_of_mem _ h')

theorem interp_cons2 {α : Type} [LinearOrderedField α] (v x1 x2 y1 y2 : α)
    (xs ys : List α) :
    interp v (x1 :: x2 :: xs) (y1 :: y2 :: ys) =
      if v ≤ x1 then y1
      else if v ≤ x2 then y1 + (v - x1) * (y2 - y1) / (x2 - x1)
      else interp v (x2 :: xs) (y2 :: ys) := by
  rw [interp]

theorem interp_head_le (v x y : ℚ) (xs ys : List ℚ)
    (hlen : xs.length = ys.length) (hv : v ≤ x) :
    interp v (x :: xs) (y :: ys) = y := by
  cases xs with
  | nil =>
    cases ys with
    | nil => rfl
    | cons y2 ys' => simp at hlen
  | cons x2 xs' =>
    cases ys with
    | nil => simp at hlen
    | cons y2 ys' => rw [interp_cons2, if_pos hv]

theorem interp_lower (xs : List ℚ) : ∀ (ys : List ℚ) (x y v : ℚ),
    List.Chain' (· < ·) (x :: xs) → List.Chain' (· < ·) (y :: ys) →
    xs.length = ys.length → x < v → v ≤ xs.getLastD x →
    y < interp v (x :: xs) (y :: ys) ∧ interp v (x :: xs) (y :: ys) ≤ ys.getLastD y := by
  induction xs with
  | nil =>
    intro ys x y v _ _ hlen hxv hvl
    cases ys with
    | nil => exact absurd (lt_of_lt_of_le hxv hvl) (lt_irrefl x)
    | cons y2 ys' => simp at hlen
  | cons x2 xs' ih =>
    intro ys x y v hcx hcy hlen hxv hvl
    cases ys with
    | nil => simp at hlen
    | cons y2 ys' =>
      have hx12 : x < x2 := (List.chain'_cons.1 hcx).1
      have hy12 : y < y2 := (List.chain'_cons.1 hcy).1
      rw [interp_cons2, if_neg (not_le.2 hxv)]
      by_cases hv2 : v ≤ x2
      · rw [if_pos hv2]
        have hden : (0 : ℚ) < x2 - x := sub_pos.2 hx12
        have hinc : 0 < (v - x) * (y2 - y) / (x2 - x) :=
          div_pos (mul_pos (sub_pos.2 hxv) (sub_pos.2 hy12)) hden
        constructor
        · linarith
        · have hstep : y + (v - x) * (y2 - y) / (x2 - x) ≤ y2 := by
            have h1 : (v - x) * (y2 - y) / (x2 - x) ≤ y2 - y := by
              rw [div_le_iff₀ hden]
              nlinarith [sub_pos.2 hy12]
            linarith
          rw [List.getLastD_cons]
          exact hstep.trans (chain_le_getLastD ys' y2 (List.chain'_cons.1 hcy).2)
      · rw [if_neg hv2]
        rw [List.getLastD_cons] at hvl
        have hres := ih ys' x2 y2 v (List.chain'_cons.1 hcx).2
          (List.chain'_cons.1 hcy).2 (by simpa using hlen) (not_le.1 hv2) hvl
        rw [List.getLastD_cons]
        exact ⟨lt_trans hy12 hres.1, hres.2⟩

theorem interp_upper (xs : List ℚ) : ∀ (ys : List ℚ) (x y v : ℚ),
    List.Chain' (· < ·) (x :: xs) → List.Chain' (· < ·) (y :: ys) →
    xs.length = ys.length → x ≤ v → v < xs.getLastD x →
    y ≤ interp v (x :: xs) (y :: ys) ∧ interp v (x :: xs) (y :: ys) < ys.getLastD y := by
  induction xs with
  | nil =>
    intro ys x y v _ _ hlen hxv hvl
    exact absurd (lt_of_le_of_lt hxv hvl) (lt_irrefl x)
  | cons x2 xs' ih =>
    intro ys x y v hcx hcy hlen hxv hvl
    cases ys with
    | nil => simp at hlen
    | cons y2 ys' =>
      have hx12 : x < x2 := (List.chain'_cons.1 hcx).1
      have hy12 : y < y2 := (List.chain'_cons.1 hcy).1
      have hlen' : xs'.length = ys'.length := by simpa using hlen
      rw [List.getLastD_cons] at hvl
      rw [interp_cons2, List.getLastD_cons]
      by_cases hv1 : v ≤ x
      · rw [if_pos hv1]
        refine ⟨le_refl y, lt_of_lt_of_le hy12 (chain_le_getLastD ys' y2 (List.chain'_cons.1 hcy).2)⟩
      · rw [if_neg hv1]
        by_cases hv2 : v ≤ x2
        · rw [if_pos hv2]
          have hden : (0 : ℚ) < x2 - x := sub_pos.2 hx12
          have hinc : 0 ≤ (v - x) * (y2 - y) / (x2 - x) :=
            div_nonneg (mul_nonneg (sub_nonneg.2 hxv) (sub_nonneg.2 hy12.le)) hden.le
          refine ⟨by linarith, ?_⟩
          cases xs' with
          | nil =>
            cases ys' with
            | nil =>
              have hvx2 : v < x2 := by simpa using hvl
              have hlt : (v - x) * (y2 - y) / (x2 - x) < y2 - y := by
                rw [div_lt_iff₀ hden]
                nlinarith [sub_pos.2 hy12]
              simpa using (by linarith :
                y + (v - x) * (y2 - y) / (x2 - x) < y2)
            | cons _ _ => simp at hlen'
          | cons x3 xs'' =>
            cases ys' with
            | nil => simp at hlen'
            | cons y3 ys'' =>
              have hstep : y + (v - x) * (y2 - y) / (x2 - x) ≤ y2 := by
                have h1 : (v - x) * (y2 - y) / (x2 - x) ≤ y2 - y := by
                  rw [div_le_iff₀ hden]
                  nlinarith [sub_pos.2 hy12]
                linarith
              refine lt_of_le_of_lt hstep ?_
              exact chain_lt_getLastD (y3 :: ys'') y2 (by simp)
                (List.chain'_cons.1 hcy).2
        · rw [if_neg hv2]
          have hres := ih ys' x2 y2 v (List.chain'_cons.1 hcx).2
            (List.chain'_cons.1 hcy).2 hlen' (not_le.1 hv2).le hvl
          exact ⟨le_trans hy12.le hres.1, hres.2⟩

theorem interp_roundtrip (xs : List ℚ) : ∀ (ys : List ℚ) (x y v : ℚ),
    List.Chain' (· < ·) (x :: xs) → List.Chain' (· < ·) (y :: ys) →
    xs.length = ys.length → x ≤ v → v ≤ xs.getLastD x →
    interp (interp v (x :: xs) (y :: ys)) (y :: ys) (x :: xs) = v := by
  induction xs with
  | nil =>
    intro ys x y v _ _ hlen hxv hvl
    cases ys with
    | nil =>
      have hvx : v = x := le_antisymm hvl hxv
      subst hvx
      rfl
    | cons y2 ys' => simp at hlen
  | cons x2 xs' ih =>
    intro ys x y v hcx hcy hlen hxv hvl
    cases ys with
    | nil => simp at hlen
    | cons y2 ys' =>
      have hx12 : x < x2 := (List.chain'_cons.1 hcx).1
      have hy12 : y < y2 := (List.chain'_cons.1 hcy).1
      have hlen' : xs'.length = ys'.length := by simpa using hlen
      rw [List.getLastD_cons] at hvl
      by_cases hv1 : v ≤ x
      · have hvx : v = x := le_antisymm hv1 hxv
        have hinner : interp v (x :: x2 :: xs') (y :: y2 :: ys') = y :=
          interp_head_le v x y _ _ (by simpa using hlen) hv1
        rw [hinner,
          interp_head_le y y x (y2 :: ys') (x2 :: xs') (by simpa using hlen.symm)
            (le_refl y), hvx]
      · by_cases hv2 : v ≤ x2
        · have hinner : interp v (x :: x2 :: xs') (y :: y2 :: ys') =
              y + (v - x) * (y2 - y) / (x2 - x) := by
            rw [interp_cons2, if_neg hv1, if_pos hv2]
          have hden : (0 : ℚ) < x2 - x := sub_pos.2 hx12
          have hdeny : (0 : ℚ) < y2 - y := sub_pos.2 hy12
          have hw1 : y < y + (v - x) * (y2 - y) / (x2 - x) := by
            have : 0 < (v - x) * (y2 - y) / (x2 - x) :=
              div_pos (mul_pos (sub_pos.2 (not_le.1 hv1)) hdeny) hden
            linarith
          have hw2 : y + (v - x) * (y2 - y) / (x2 - x) ≤ y2 := by
            have h1 : (v - x) * (y2 - y) / (x2 - x) ≤ y2 - y := by
              rw [div_le_iff₀ hden]
              nlinarith
            linarith
          rw [hinner, interp_cons2, if_neg (not_le.2 hw1), if_pos hw2]
          field_simp
          ring
        · have hinner : interp v (x :: x2 :: xs') (y :: y2 :: ys') =
              interp v (x2 :: xs') (y2 :: ys') := by
            rw [interp_cons2, if_neg hv1, if_neg hv2]
          have hlow := interp_lower xs' ys' x2 y2 v (List.chain'_cons.1 hcx).2
            (List.chain'_cons.1 hcy).2 hlen' (not_le.1 hv2) hvl
          have hny : ¬ interp v (x2 :: xs') (y2 :: ys') ≤ y :=
            not_le.2 (lt_trans hy12 hlow.1)
          have hny2 : ¬ interp v (x2 :: xs') (y2 :: ys') ≤ y2 := not_le.2 hlow.1
          rw [hinner, interp_cons2, if_neg hny, if_neg hny2]
          exact ih ys' x2 y2 v (List.chain'_cons.1 hcx).2
            (List.chain'_cons.1 hcy).2 hlen' (not_le.1 hv2).le hvl

theorem interp_ratCast (xs : List ℚ) : ∀ (ys : List ℚ) (v : ℚ),
    interp (v : ℝ) (xs.map (fun (q : ℚ) => (q : ℝ)))
      (ys.map (fun (q : ℚ) => (q : ℝ))) = ((interp v xs ys : ℚ) : ℝ) := by
  induction xs with
  | nil =>
    intro ys v
    cases ys <;> simp [interp]
  | cons x1 rest ih =>
    intro ys v
    cases rest with
    | nil =>
      cases ys with
      | nil => simp [interp]
      | cons y ys' => simp [interp]
    | cons x2 xs' =>
      cases ys with
      | nil => simp [interp]
      | cons y1 ys' =>
        cases ys' with
        | nil => simp [interp]
        | cons y2 ys'' =>
          simp only [List.map_cons]
          rw [interp_cons2, interp_cons2]
          by_cases h1 : v ≤ x1
          · rw [if_pos (by exact_mod_cast h1 : (v : ℝ) ≤ (x1 : ℝ)), if_pos h1]
          · rw [if_neg (by exact_mod_cast h1 : ¬ (v : ℝ) ≤ (x1 : ℝ)), if_neg h1]
            by_cases h2 : v ≤ x2
            · rw [if_pos (by exact_mod_cast h2 : (v : ℝ) ≤ (x2 : ℝ)), if_pos h2]
              push_cast
              ring
            · rw [if_neg (by exact_mod_cast h2 : ¬ (v : ℝ) ≤ (x2 : ℝ)), if_neg h2]
              have h3 := ih (y2 :: ys'') v
              simp only [List.map_cons] at h3
              exact h3

/-- Embedding of `single_strip_transform_factory(...).forward`
(`to_bl_coords` in `sample_geometry.py`): checks the exact key and the
`ti` range, then computes the along-strip distance by interpolation and
rotates/translates it into beamline coordinates.  `none` models the two
`raise ValueError` paths. -/
noncomputable def to_bl_coords (strip : StripInfo) (cs : ℚ)
    (Ti_frac temperature annealing_time thickness : ℚ) : Option (ℝ × ℝ) :=
  if (strip.temperature : ℚ) ≠ temperature ∨
      annealing_time ≠ (strip.annealing_time : ℚ) ∨
      (strip.thickness : ℚ) ≠ thickness then none
  else if Ti_frac > listMax strip.ti_fractions ∨
      Ti_frac < listMin strip.ti_fractions then none
  else
    let cpos := cell_positions strip.ti_fractions.length cs
    let d : ℚ := interp Ti_frac strip.ti_fractions cpos
      - strip.start_distance + cs / 2
    some ((strip.reference_x : ℝ) - Real.cos (strip.angle : ℝ) * (d : ℝ),
          (strip.reference_y : ℝ) - Real.sin (strip.angle : ℝ) * (d : ℝ))

/-- The numeric core of `single_strip_transform_factory(...).inverse`
(`to_data_coords` in `sample_geometry.py`): the recovered along-strip
distance `d` and perpendicular offset `h`.  The source computes
`d_angle = -np.arctan2(y_rel, x_rel)` and then only ever uses
`cos(d_angle - angle)` and `sin(d_angle - angle)`; here those two values
are written out through the exact identities
`cos (arctan2 y x) = x / r`, `sin (arctan2 y x) = y / r` (for `r ≠ 0`,
with `arctan2 0 0 = 0`) and the angle-subtraction formulas, which hold
for all inputs. -/
noncomputable def inverseCore (strip : StripInfo) (cs : ℚ) (x y : ℝ) : ℝ × ℝ :=
  let x_rel : ℝ := -(x - (strip.reference_x : ℝ))
  let y_rel : ℝ := y - (strip.reference_y : ℝ)
  let r : ℝ := Real.sqrt (x_rel ^ 2 + y_rel ^ 2)
  let cos_d : ℝ := if r = 0 then 1 else x_rel / r
  let sin_d : ℝ := if r = 0 then 0 else -y_rel / r
  let cos_f : ℝ := cos_d * Real.cos (strip.angle : ℝ) +
    sin_d * Real.sin (strip.angle : ℝ)
  let sin_f : ℝ := sin_d * Real.cos (strip.angle : ℝ) -
    cos_d * Real.sin (strip.angle : ℝ)
  (cos_f * (r + (strip.start_distance : ℝ) - (cs : ℝ) / 2), -sin_f * r)

/-- Embedding of `single_strip_transform_factory(...).inverse`: the
`d`/`h` bound checks around `inverseCore`, then the interpolation back
to a Ti fraction.  `none` models the two `raise ValueError` paths. -/
noncomputable def to_data_coords (strip : StripInfo) (cs : ℚ) (x y : ℝ) :
    Option (ℝ × ℤ × ℤ × ℤ) :=
  let d : ℝ := (inverseCore strip cs x y).1
  let hh : ℝ := (inverseCore strip cs x y).2
  let cpos := cell_positions strip.ti_fractions.length cs
  if ¬ ((listMin cpos : ℝ) < d ∧ d < (listMax cpos : ℝ)) then none
  else if ¬ (-((cs : ℝ) / 2) < hh ∧ hh < (cs : ℝ) / 2) then none
  else some
    (interp d (cpos.map (fun (q : ℚ) => (q : ℝ)))
      (strip.ti_fractions.map (fun (q : ℚ) => (q : ℝ))),
     strip.temperature, strip.annealing_time, strip.thickness)

/-- The key `(temperature, annealing_time, thickness)` under which
`strip_list_transform_factory` stores a strip in `by_annealing`,
compared (as Python numbers compare) against a requested key. -/
def keyMatch (s : StripInfo) (temperature annealing_time thickness : ℚ) : Prop :=
  (s.temperature : ℚ) = temperature ∧ (s.annealing_time : ℚ) = annealing_time ∧
    (s.thickness : ℚ) = thickness

instance (s : StripInfo) (temperature annealing_time thickness : ℚ) :
    Decidable (keyMatch s temperature annealing_time thickness) :=
  inferInstanceAs (Decidable (_ ∧ _ ∧ _))

/-- Embedding of `strip_list_transform_factory(strips).forward`: the
candidates under the requested key (`by_annealing` is a `defaultdict`,
so an absent key gives the empty list) are scanned in input order; the
first whose `[ti_min, ti_max]` contains `Ti_frac` handles the request,
otherwise `raise ValueError` (`none`). -/
noncomputable def strip_list_forward (strips : List StripInfo) (cs : ℚ)
    (Ti_frac temperature annealing_time thickness : ℚ) : Option (ℝ × ℝ) :=
  let candidates := strips.filter
    (fun s => decide (keyMatch s temperature annealing_time thickness))
  match candidates.find?
      (fun s => decide (s.ti_min ≤ Ti_frac ∧ Ti_frac ≤ s.ti_max)) with
  | some s => to_bl_coords s cs Ti_frac temperature annealing_time thickness
  | none => none

/-- Embedding of `np.round` on a scalar: round half to even. -/
def npRound (q : ℚ) : ℤ :=
  if q - Int.floor q < 1 / 2 then Int.floor q
  else if (1 : ℚ) / 2 < q - Int.floor q then Int.floor q + 1
  else if Int.floor q % 2 = 0 then Int.floor q else Int.floor q + 1

/-- Embedding of `np.clip(v, lo, hi)` (maximum, then minimum). -/
def npClip (v lo hi : ℚ) : ℚ := min (max v lo) hi

/-- Embedding of `int(np.clip(r, 0, 1))` for an integer `r`. -/
def npClipInt (v lo hi : ℤ) : ℤ := min (max v lo) hi

/-- The optional tolerances captured by `snap_factory`. -/
structure SnapTols where
  temp_tol : Option ℚ
  time_tol : Option ℚ
  Ti_tol : Option ℚ
deriving DecidableEq

/-- The chain of `filter` calls inside `snap`: thickness equality, then
the optional temperature, annealing-time and Ti tolerance filters. -/
def snapFilter (strips : List StripInfo) (tols : SnapTols)
    (Ti temperature annealing_time : ℚ) (th : ℤ) : List StripInfo :=
  let l1 := strips.filter (fun s => decide (s.thickness = th))
  let l2 := match tols.temp_tol with
    | none => l1
    | some tol => l1.filter (fun s => decide (|(s.temperature : ℚ) - temperature| < tol))
  let l3 := match tols.time_tol with
    | none => l2
    | some tol => l2.filter
        (fun s => decide (|(s.annealing_time : ℚ) - annealing_time| < tol))
  match tols.Ti_tol with
    | none => l3
    | some tol => l3.filter
        (fun s => decide (s.ti_min - tol ≤ Ti ∧ Ti ≤ s.ti_max + tol))

/-- The `l2_norm` sort key of `snap`.  The source takes
`min(..., key=np.hypot(dT, dt))`; `hypot` is the square root of this
value and square root is strictly monotone on nonnegatives, so `min` by
`hypot` and `min` by the squared norm pick the same strip. -/
def l2sq (temperature annealing_time : ℚ) (s : StripInfo) : ℚ :=
  ((s.temperature : ℚ) - temperature) ^ 2 +
    ((s.annealing_time : ℚ) - annealing_time) ^ 2

/-- Python's `min(iterable, key=f)`: first element with minimal key
(`none` on the empty iterable, where the source raises `ValueError`). -/
def argminBy (f : StripInfo → ℚ) : List StripInfo → Option StripInfo
  | [] => none
  | x :: xs => some (xs.foldl (fun b a => if f a < f b then a else b) x)

/-- Embedding of `snap_factory(strip_list, ...)`'s `snap`.  The source's
`except ValueError` branch calls `snap` again with the flipped thickness
unconditionally, so when both thickness categories filter to nothing the
recursion never terminates (Python eventually dies with a
`RecursionError`); `fuel` counts the remaining recursion depth and
`none` means the call has not produced a value within that depth. -/
def snapFuel (tols : SnapTols) (strips : List StripInfo) :
    ℕ → ℚ → ℚ → ℚ → ℚ → Option (ℚ × ℤ × ℤ × ℤ)
  | 0, _, _, _, _ => none
  | fuel + 1, Ti, temperature, annealing_time, thickness =>
    let th : ℤ := npClipInt (npRound thickness) 0 1
    match argminBy (l2sq temperature annealing_time)
        (snapFilter strips tols Ti temperature annealing_time th) with
    | some best => some (npClip Ti (best.ti_min + 1) (best.ti_max - 1),
        best.temperature, best.annealing_time, best.thickness)
    | none => snapFuel tols strips fuel Ti temperature annealing_time
        ((1 - th : ℤ) : ℚ)

/-- What a run of `gp_inner_plan` produced, as observable from outside:
the trace of completed measurement runs (batch counter paired with the
target point each was taken at), the timeout passed to each blocking
`from_recommender.get`, and how the plan ended. -/
inductive Outcome (α : Type) where
  | returned : Option (List (ℕ × α)) → Outcome α
  | timedOut : Outcome α
deriving DecidableEq

structure RunResult (α : Type) where
  measured : List (ℕ × α)
  getTimeouts : List ℚ
  outcome : Outcome α
deriving DecidableEq

/-- The INIT drain of `gp_inner_plan`: `get(block=False)` in a loop
until the queue raises `Empty`; returns the channel contents that
survive (the loop discards one entry per step and stops on the empty
channel). -/
def drainChannel {α : Type} : List (Option α) → List (Option α)
  | [] => []
  | _ :: rest => drainChannel rest

/-- The `for j in itertools.count()` loop of `gp_inner_plan`.  Each
iteration moves to `point` (snap/forward/mov/readback/inverse are
collaborators that do not influence the control flow) and measures,
producing uid `j`; then it issues one blocking
`from_recommender.get(timeout=...)` consuming the next arrival.  An
empty channel is the timeout (`TimeoutError` propagates), the sentinel
`None` triggers the bare `return` in the source (a generator's bare
`return` returns `None`, so no uid list is returned; the `return uids`
after the loop is unreachable), and a point continues the loop. -/
def gpLoop {α : Type} (timeout : ℚ) :
    List (Option α) → α → ℕ → List (ℕ × α) → List ℚ → RunResult α
  | [], point, j, uids, gets =>
      ⟨uids ++ [(j, point)], gets ++ [timeout], Outcome.timedOut⟩
  | none :: _, point, j, uids, gets =>
      ⟨uids ++ [(j, point)], gets ++ [timeout], Outcome.returned none⟩
  | some p :: rest, point, j, uids, gets =>
      gpLoop timeout rest p (j + 1) (uids ++ [(j, point)]) (gets ++ [timeout])

/-- Embedding of `gp_inner_plan` from `adaptive_plan`: drain whatever is
in the channel at INIT, then run the loop starting from `first_point`;
`arrivals` are the values the blocking `get`s of the loop consume (they
arrive only after the drain has finished). -/
def gp_inner_plan {α : Type} (timeout : ℚ) (preloaded arrivals : List (Option α))
    (first_point : α) : RunResult α :=
  gpLoop timeout (drainChannel preloaded ++ arrivals) first_point 0 [] []

theorem drainChannel_eq_nil {α : Type} (l : List (Option α)) :
    drainChannel l = [] := by
  induction l with
  | nil => rfl
  | cons a rest ih => exact ih

theorem gpLoop_all_some {α : Type} (timeout : ℚ) :
    ∀ (arrivals : List (Option α)) (point : α) (j : ℕ)
      (uids : List (ℕ × α)) (gets : List ℚ),
    (∀ a ∈ arrivals, a ≠ none) →
    (gpLoop timeout arrivals point j uids gets).outcome = Outcome.timedOut ∧
    (gpLoop timeout arrivals point j uids gets).measured.length =
      uids.length + (arrivals.length + 1) ∧
    (gpLoop timeout arrivals point j uids gets).getTimeouts =
      gets ++ List.replicate (arrivals.length + 1) timeout := by
  intro arrivals
  induction arrivals with
  | nil =>
    intro point j uids gets _
    refine ⟨rfl, by simp [gpLoop], by simp [gpLoop]⟩
  | cons a rest ih =>
    intro point j uids gets h
    cases a with
    | none => exact absurd rfl (h none (by simp))
    | some p =>
      have hres := ih p (j + 1) (uids ++ [(j, point)]) (gets ++ [timeout])
        (fun a ha => h a (List.mem_cons_of_mem _ ha))
      refine ⟨hres.1, ?_, ?_⟩
      · rw [show gpLoop timeout (some p :: rest) point j uids gets =
            gpLoop timeout rest p (j + 1) (uids ++ [(j, point)]) (gets ++ [timeout])
            from rfl, hres.2.1]
        simp
        omega
      · rw [show gpLoop timeout (some p :: rest) point j uids gets =
            gpLoop timeout rest p (j + 1) (uids ++ [(j, point)]) (gets ++ [timeout])
            from rfl, hres.2.2]
        simp [List.replicate_succ]

/-- C1: on the sentinel the loop does terminate, but the code's bare
`return` (line 443 of `01-adaptive.py`) makes the generator return
`None` instead of the accumulated uid list — the `return uids` after the
`itertools.count()` loop is unreachable.  With arrivals
`[{"x":1}, {"x":2}, None]` the run performs 3 measurements (the first at
`first_point`) and returns no identifiers; and if those three entries
are instead pre-loaded before `run` starts, the INIT drain discards them
and the run times out after a single measurement, so it never returns
"exactly 2 identifiers" in either reading. -/
theorem C1_sentinel_returns_no_uids :
    gp_inner_plan 1 ([] : List (Option ℚ)) [some 1, some 2, none] 0 =
      ⟨[(0, 0), (1, 1), (2, 2)], [1, 1, 1], Outcome.returned none⟩ ∧
    gp_inner_plan 1 [some (1 : ℚ), some 2, none] [] 0 =
      ⟨[(0, 0)], [1], Outcome.timedOut⟩ := by
  constructor <;> rfl

/-- C7: the INIT drain empties the channel before the loop starts, so
two invocations that differ only in the pre-seeded (stale) channel
contents produce identical runs — same measured targets, same consumed
recommendations, same outcome.  In particular stale entries never become
a target point. -/
theorem C7_stale_preload_ignored {α : Type} (timeout : ℚ)
    (pre1 pre2 arrivals : List (Option α)) (first_point : α) :
    gp_inner_plan timeout pre1 arrivals first_point =
      gp_inner_plan timeout pre2 arrivals first_point := by
  rw [gp_inner_plan, gp_inner_plan, drainChannel_eq_nil, drainChannel_eq_nil]

/-- C8: each loop iteration issues exactly one blocking `get` with the
configured timeout (the `getTimeouts` trace is one entry per
measurement, all equal to the configured value); when the channel
delivers no sentinel and runs dry, the timeout aborts the loop with no
retry and no further measurement (exactly `arrivals.length + 1` runs
were taken), and the identifiers of the measurements already taken
remain in the trace — the controller does not discard them. -/
theorem C8_timeout_aborts {α : Type} (timeout : ℚ)
    (preloaded arrivals : List (Option α)) (first_point : α)
    (h : ∀ a ∈ arrivals, a ≠ none) :
    (gp_inner_plan timeout preloaded arrivals first_point).outcome =
      Outcome.timedOut ∧
    (gp_inner_plan timeout preloaded arrivals first_point).measured.length =
      arrivals.length + 1 ∧
    (gp_inner_plan timeout preloaded arrivals first_point).getTimeouts =
      List.replicate (arrivals.length + 1) timeout := by
  have hres := gpLoop_all_some timeout (drainChannel preloaded ++ arrivals)
    first_point 0 [] [] (by rw [drainChannel_eq_nil, List.nil_append]; exact h)
  rw [gp_inner_plan]
  rw [drainChannel_eq_nil, List.nil_append] at hres ⊢
  refine ⟨hres.1, ?_, ?_⟩
  · rw [hres.2.1]; simp
  · rw [hres.2.2]; simp

theorem C8_timeout_aborts_witness :
    (∀ a ∈ [some (1 : ℚ), some 2], a ≠ none) ∧
    ((gp_inner_plan 1 [] [some (1 : ℚ), some 2] 0).outcome = Outcome.timedOut ∧
     (gp_inner_plan 1 [] [some (1 : ℚ), some 2] 0).measured.length = 3 ∧
     (gp_inner_plan 1 [] [some (1 : ℚ), some 2] 0).getTimeouts =
       List.replicate 3 1) :=
  ⟨by decide, C8_timeout_aborts 1 [] [some 1, some 2] 0 (by decide)⟩

theorem foldl_pick_mem (f : StripInfo → ℚ) (xs : List StripInfo) :
    ∀ (x : StripInfo),
      xs.foldl (fun b a => if f a < f b then a else b) x ∈ x :: xs := by
  induction xs with
  | nil => intro x; simp
  | cons a as ih =>
    intro x
    rw [List.foldl_cons]
    have h := ih (if f a < f x then a else x)
    rcases List.mem_cons.1 h with h' | h'
    · rw [h']
      split
      · exact List.mem_cons_of_mem _ (List.mem_cons_self _ _)
      · exact List.mem_cons_self _ _
    · exact List.mem_cons_of_mem _ (List.mem_cons_of_mem _ h')

theorem argminBy_mem (f : StripInfo → ℚ) (l : List StripInfo) (s : StripInfo)
    (h : argminBy f l = some s) : s ∈ l := by
  cases l with
  | nil => simp [argminBy] at h
  | cons x xs =>
    rw [argminBy, Option.some.injEq] at h
    rw [← h]
    exact foldl_pick_mem f xs x

theorem mem_snapFilter (strips : List StripInfo) (tols : SnapTols)
    (Ti temperature annealing_time : ℚ) (th : ℤ) (s : StripInfo)
    (hs : s ∈ snapFilter strips tols Ti temperature annealing_time th) :
    s ∈ strips ∧ s.thickness = th := by
  rw [snapFilter] at hs
  rcases h1 : tols.temp_tol with _ | tol1 <;>
    rcases h2 : tols.time_tol with _ | tol2 <;>
    rcases h3 : tols.Ti_tol with _ | tol3 <;>
    simp only [h1, h2, h3] at hs <;>
    simp only [List.mem_filter, decide_eq_true_eq] at hs <;>
    tauto

theorem snapFuel_some_spec (tols : SnapTols) (strips : List StripInfo) :
    ∀ (fuel : ℕ) (Ti temperature annealing_time thickness : ℚ)
      (ti' : ℚ) (T' t' th' : ℤ),
    snapFuel tols strips fuel Ti temperature annealing_time thickness =
      some (ti', T', t', th') →
    ∃ s ∈ strips, ti' = npClip Ti (s.ti_min + 1) (s.ti_max - 1) ∧
      T' = s.temperature ∧ t' = s.annealing_time ∧ th' = s.thickness := by
  intro fuel
  induction fuel with
  | zero =>
    intro Ti temperature annealing_time thickness ti' T' t' th' hr
    simp [snapFuel] at hr
  | succ n ih =>
    intro Ti temperature annealing_time thickness ti' T' t' th' hr
    rw [snapFuel] at hr
    rcases hb : argminBy (l2sq temperature annealing_time)
        (snapFilter strips tols Ti temperature annealing_time
          (npClipInt (npRound thickness) 0 1)) with _ | best
    · rw [hb] at hr
      exact ih Ti temperature annealing_time _ ti' T' t' th' hr
    · rw [hb] at hr
      simp only [Option.some.injEq, Prod.mk.injEq] at hr
      obtain ⟨h1, h2, h3, h4⟩ := hr
      exact ⟨best,
        (mem_snapFilter strips tols Ti temperature annealing_time _ best
          (argminBy_mem _ _ _ hb)).1,
        h1.symm, h2.symm, h3.symm, h4.symm⟩

/-- C5: whenever `snap` returns, the result carries exactly the selected
strip's `temperature`, `annealing_time` and `thickness`, and the
returned `Ti` was clipped into `[ti_min + 1, ti_max - 1]`, hence lies
strictly inside `(ti_min, ti_max)` as long as every strip's range is at
least 2 wide. -/
theorem C5_snap_strictly_inside (tols : SnapTols) (strips : List StripInfo)
    (fuel : ℕ) (Ti temperature annealing_time thickness : ℚ)
    (ti' : ℚ) (T' t' th' : ℤ)
    (hw : ∀ s ∈ strips, s.ti_min + 2 ≤ s.ti_max)
    (hr : snapFuel tols strips fuel Ti temperature annealing_time thickness =
      some (ti', T', t', th')) :
    ∃ s ∈ strips, T' = s.temperature ∧ t' = s.annealing_time ∧
      th' = s.thickness ∧ s.ti_min < ti' ∧ ti' < s.ti_max := by
  obtain ⟨s, hmem, hclip, hT, ht, hth⟩ :=
    snapFuel_some_spec tols strips fuel Ti temperature annealing_time thickness
      ti' T' t' th' hr
  have hwid := hw s hmem
  have hlohi : s.ti_min + 1 ≤ s.ti_max - 1 := by linarith
  have hlo : s.ti_min + 1 ≤ ti' := by
    rw [hclip, npClip]
    exact le_min (le_max_right Ti (s.ti_min + 1)) hlohi
  have hhi : ti' ≤ s.ti_max - 1 := by
    rw [hclip, npClip]
    exact min_le_right _ _
  exact ⟨s, hmem, hT, ht, hth, by linarith, by linarith⟩

def stripA : StripInfo := ⟨340, 450, [10, 20], 0, 0, 1, 0, 0⟩

def noTols : SnapTols := ⟨none, none, none⟩

theorem C5_snap_strictly_inside_witness :
    (∀ s ∈ [stripA], s.ti_min + 2 ≤ s.ti_max) ∧
    snapFuel noTols [stripA] 1 15 340 450 0 = some (15, 340, 450, 0) ∧
    (∃ s ∈ [stripA], (340 : ℤ) = s.temperature ∧ (450 : ℤ) = s.annealing_time ∧
      (0 : ℤ) = s.thickness ∧ s.ti_min < 15 ∧ (15 : ℚ) < s.ti_max) := by
  have hw : ∀ s ∈ [stripA], s.ti_min + 2 ≤ s.ti_max := by
    intro s hs
    simp only [List.mem_singleton] at hs
    subst hs
    norm_num [stripA, StripInfo.ti_min, StripInfo.ti_max, listMin, listMax]
  have hr : snapFuel noTols [stripA] 1 15 340 450 0 = some (15, 340, 450, 0) := by
    norm_num [snapFuel, snapFilter, argminBy, npRound, npClipInt, npClip, noTols,
      stripA, StripInfo.ti_min, StripInfo.ti_max, listMin, listMax, l2sq]
  exact ⟨hw, hr, C5_snap_strictly_inside noTols [stripA] 1 15 340 450 0
    15 340 450 0 hw hr⟩

def farTols : SnapTols := ⟨some 5, none, none⟩

theorem snapFilter_far (Ti annealing_time : ℚ) (th : ℤ) :
    snapFilter [stripA] farTols Ti 1000 annealing_time th = [] := by
  rw [snapFilter]
  simp only [farTols]
  norm_num [stripA, List.filter_cons, List.filter_nil, apply_ite]

/-- C2: the recovery branch of `snap` calls itself with the flipped
thickness unconditionally, so when no strip survives the filters for
either thickness category the recursion never terminates — Python dies
with a `RecursionError` instead of raising the documented no-candidate
error.  Concretely, with one thickness-0 strip at 340 °C, a temperature
tolerance of 5 and a request at 1000 °C, no recursion depth ever
produces an answer (or a clean failure). -/
theorem C2_snap_retry_diverges (fuel : ℕ) (Ti annealing_time thickness : ℚ) :
    snapFuel farTols [stripA] fuel Ti 1000 annealing_time thickness = none := by
  induction fuel generalizing thickness with
  | zero => rfl
  | succ n ih =>
    rw [snapFuel, snapFilter_far]
    exact ih _

theorem to_bl_coords_isSome_iff (strip : StripInfo) (cs : ℚ)
    (Ti temperature annealing_time thickness : ℚ) :
    (to_bl_coords strip cs Ti temperature annealing_time thickness).isSome ↔
      (keyMatch strip temperature annealing_time thickness ∧
        strip.ti_min ≤ Ti ∧ Ti ≤ strip.ti_max) := by
  rw [to_bl_coords]
  split_ifs with h1 h2
  · simp only [Option.isSome_none, Bool.false_eq_true, false_iff]
    intro hcon
    rcases h1 with h | h | h
    · exact h hcon.1.1
    · exact h hcon.1.2.1.symm
    · exact h hcon.1.2.2
  · simp only [Option.isSome_none, Bool.false_eq_true, false_iff]
    push_neg at h1
    intro hcon
    rcases h2 with h | h
    · exact absurd hcon.2.2 (not_le.2 h)
    · exact absurd hcon.2.1 (not_le.2 h)
  · simp only [Option.isSome_some, true_iff]
    push_neg at h1 h2
    exact ⟨⟨h1.1, h1.2.1.symm, h1.2.2⟩, h2.2, h2.1⟩

/-- C6: `forward` of a single-strip transform rejects exactly the
requests whose key differs from the strip's key or whose `ti` lies
outside `[ti_min, ti_max]`; in particular `ti = ti_min` and
`ti = ti_max` are accepted.  (The nonemptiness hypothesis records that
the source would instead die inside `np.min`/`np.max` on a strip with no
`ti_fractions`.) -/
theorem C6_forward_domain (strip : StripInfo) (cs : ℚ)
    (Ti temperature annealing_time thickness : ℚ)
    (hne : strip.ti_fractions ≠ []) :
    (to_bl_coords strip cs Ti temperature annealing_time thickness).isSome ↔
      (keyMatch strip temperature annealing_time thickness ∧
        strip.ti_min ≤ Ti ∧ Ti ≤ strip.ti_max) :=
  to_bl_coords_isSome_iff strip cs Ti temperature annealing_time thickness

theorem C6_forward_domain_witness :
    (stripA.ti_fractions ≠ []) ∧
    ((to_bl_coords stripA (9/2) 10 340 450 0).isSome ↔
      (keyMatch stripA 340 450 0 ∧ stripA.ti_min ≤ 10 ∧ (10 : ℚ) ≤ stripA.ti_max)) :=
  ⟨by simp [stripA], C6_forward_domain stripA (9/2) 10 340 450 0 (by simp [stripA])⟩

theorem find?_append_none {α : Type} (p : α → Bool) (l1 l2 : List α)
    (h : l1.find? p = none) : (l1 ++ l2).find? p = l2.find? p := by
  induction l1 with
  | nil => rfl
  | cons a as ih =>
    cases hpa : p a with
    | true =>
      rw [List.find?_cons_of_pos _ hpa] at h
      exact absurd h (by simp)
    | false =>
      rw [List.find?_cons_of_neg _ (by simp [hpa])] at h
      rw [List.cons_append, List.find?_cons_of_neg _ (by simp [hpa])]
      exact ih h

/-- C4: `strip_list_transform_factory(...).forward` looks the request
key up in `by_annealing` (an absent key yields the empty candidate
list), scans candidates in input order and delegates to the first whose
`[ti_min, ti_max]` contains the request — with overlapping ranges the
first strip in input order wins — and fails (`raise ValueError`) exactly
when no stored candidate under the key contains the requested `Ti`. -/
theorem C4_dispatch (strips : List StripInfo) (cs : ℚ)
    (Ti temperature annealing_time thickness : ℚ) :
    (strip_list_forward strips cs Ti temperature annealing_time thickness = none ↔
      ∀ s ∈ strips, keyMatch s temperature annealing_time thickness →
        ¬ (s.ti_min ≤ Ti ∧ Ti ≤ s.ti_max)) ∧
    (∀ pre s post, strips = pre ++ s :: post →
      keyMatch s temperature annealing_time thickness →
      s.ti_min ≤ Ti → Ti ≤ s.ti_max →
      (∀ s' ∈ pre, keyMatch s' temperature annealing_time thickness →
        ¬ (s'.ti_min ≤ Ti ∧ Ti ≤ s'.ti_max)) →
      strip_list_forward strips cs Ti temperature annealing_time thickness =
        to_bl_coords s cs Ti temperature annealing_time thickness ∧
      (to_bl_coords s cs Ti temperature annealing_time thickness).isSome) := by
  constructor
  · rw [strip_list_forward]
    rcases hf : (strips.filter
        (fun s => decide (keyMatch s temperature annealing_time thickness))).find?
        (fun s => decide (s.ti_min ≤ Ti ∧ Ti ≤ s.ti_max)) with _ | c
    · simp only [hf, true_iff]
      intro s hs hkey hrange
      have := List.find?_eq_none.1 hf s
        (List.mem_filter.2 ⟨hs, by simpa using hkey⟩)
      simp only [decide_eq_true_eq] at this
      exact this hrange
    · simp only [hf]
      have hc1 := List.find?_some hf
      have hc2 := List.mem_of_find?_eq_some hf
      simp only [decide_eq_true_eq] at hc1
      have hkey : keyMatch c temperature annealing_time thickness := by
        have := (List.mem_filter.1 hc2).2
        simpa using this
      have hsome : (to_bl_coords c cs Ti temperature annealing_time thickness).isSome :=
        (to_bl_coords_isSome_iff c cs Ti temperature annealing_time thickness).2
          ⟨hkey, hc1.1, hc1.2⟩
      constructor
      · intro hnone
        rw [hnone] at hsome
        simp at hsome
      · intro hall
        exact absurd hc1 (hall c (List.mem_of_mem_filter hc2) hkey)
  · intro pre s post hsplit hkey hlo hhi hpre
    have hsome : (to_bl_coords s cs Ti temperature annealing_time thickness).isSome :=
      (to_bl_coords_isSome_iff s cs Ti temperature annealing_time thickness).2
        ⟨hkey, hlo, hhi⟩
    refine ⟨?_, hsome⟩
    rw [strip_list_forward, hsplit, List.filter_append, List.filter_cons,
      if_pos (by simpa using hkey)]
    have hnone : (pre.filter
        (fun s => decide (keyMatch s temperature annealing_time thickness))).find?
        (fun s => decide (s.ti_min ≤ Ti ∧ Ti ≤ s.ti_max)) = none := by
      rw [List.find?_eq_none]
      intro a ha
      have hmem := List.mem_of_mem_filter ha
      have hak : keyMatch a temperature annealing_time thickness := by
        have := (List.mem_filter.1 ha).2
        simpa using this
      simpa using hpre a hmem hak
    rw [find?_append_none _ _ _ hnone,
      List.find?_cons_of_pos _ (by simp [hlo, hhi])]

def stripB : StripInfo := ⟨340, 450, [15, 30], 0, -5, 1, 0, 0⟩

theorem C4_dispatch_witness :
    strip_list_forward [stripA, stripB] (9/2) 18 340 450 0 =
      to_bl_coords stripA (9/2) 18 340 450 0 ∧
    (to_bl_coords stripA (9/2) 18 340 450 0).isSome :=
  (C4_dispatch [stripA, stripB] (9/2) 18 340 450 0).2 [] stripA [stripB] rfl
    (by norm_num [keyMatch, stripA])
    (by norm_num [stripA, StripInfo.ti_min, listMin])
    (by norm_num [stripA, StripInfo.ti_max, listMax])
    (by intro s' hs'; exact absurd hs' (List.not_mem_nil s'))

/-- C9: a successfully snapped point is always physically realizable:
feeding `snap`'s result into the `RegionSet` forward dispatch built from
the same strip list cannot raise — the snapped key is present (the
selected strip itself is stored under it) and the clipped `Ti` lies
inside a candidate's range, provided every strip's `ti` range is at
least 2 wide (so the inward clip margin cannot cross over). -/
theorem C9_snapped_point_realizable (tols : SnapTols) (strips : List StripInfo)
    (fuel : ℕ) (Ti temperature annealing_time thickness : ℚ) (cs : ℚ)
    (ti' : ℚ) (T' t' th' : ℤ)
    (hw : ∀ s ∈ strips, s.ti_min + 2 ≤ s.ti_max)
    (hr : snapFuel tols strips fuel Ti temperature annealing_time thickness =
      some (ti', T', t', th')) :
    (strip_list_forward strips cs ti' (T' : ℚ) (t' : ℚ) (th' : ℚ)).isSome := by
  obtain ⟨best, hmem, hclip, hT, ht, hth⟩ :=
    snapFuel_some_spec tols strips fuel Ti temperature annealing_time thickness
      ti' T' t' th' hr
  have hwid := hw best hmem
  have hlohi : best.ti_min + 1 ≤ best.ti_max - 1 := by linarith
  have hlo : best.ti_min ≤ ti' := by
    have : best.ti_min + 1 ≤ ti' := by
      rw [hclip, npClip]
      exact le_min (le_max_right Ti (best.ti_min + 1)) hlohi
    linarith
  have hhi : ti' ≤ best.ti_max := by
    have : ti' ≤ best.ti_max - 1 := by
      rw [hclip, npClip]
      exact min_le_right _ _
    linarith
  have hkey : keyMatch best (T' : ℚ) (t' : ℚ) (th' : ℚ) := by
    subst hT ht hth
    exact ⟨rfl, rfl, rfl⟩
  rw [strip_list_forward]
  rcases hf : (strips.filter
      (fun s => decide (keyMatch s (T' : ℚ) (t' : ℚ) (th' : ℚ)))).find?
      (fun s => decide (s.ti_min ≤ ti' ∧ ti' ≤ s.ti_max)) with _ | c
  · exfalso
    have := List.find?_eq_none.1 hf best
      (List.mem_filter.2 ⟨hmem, by simpa using hkey⟩)
    simp only [decide_eq_true_eq] at this
    exact this ⟨hlo, hhi⟩
  · simp only [hf]
    have hc1 := List.find?_some hf
    have hc2 := List.mem_of_find?_eq_some hf
    simp only [decide_eq_true_eq] at hc1
    have hckey : keyMatch c (T' : ℚ) (t' : ℚ) (th' : ℚ) := by
      have := (List.mem_filter.1 hc2).2
      simpa using this
    exact (to_bl_coords_isSome_iff c cs ti' (T' : ℚ) (t' : ℚ) (th' : ℚ)).2
      ⟨hckey, hc1.1, hc1.2⟩

theorem C9_snapped_point_realizable_witness :
    (∀ s ∈ [stripA], s.ti_min + 2 ≤ s.ti_max) ∧
    snapFuel noTols [stripA] 1 15 340 450 0 = some (15, 340, 450, 0) ∧
    (strip_list_forward [stripA] (9/2) 15 340 450 0).isSome := by
  have hw : ∀ s ∈ [stripA], s.ti_min + 2 ≤ s.ti_max := by
    intro s hs
    simp only [List.mem_singleton] at hs
    subst hs
    norm_num [stripA, StripInfo.ti_min, StripInfo.ti_max, listMin, listMax]
  have hr : snapFuel noTols [stripA] 1 15 340 450 0 = some (15, 340, 450, 0) := by
    norm_num [snapFuel, snapFilter, argminBy, npRound, npClipInt, npClip, noTols,
      stripA, StripInfo.ti_min, StripInfo.ti_max, listMin, listMax, l2sq]
  exact ⟨hw, hr, C9_snapped_point_realizable noTols [stripA] 1 15 340 450 0 (9/2)
    15 340 450 0 hw hr⟩

theorem inverseCore_on_ray (strip : StripInfo) (cs d0 : ℚ) (hd0 : 0 < d0) :
    inverseCore strip cs
      ((strip.reference_x : ℝ) - Real.cos (strip.angle : ℝ) * (d0 : ℝ))
      ((strip.reference_y : ℝ) - Real.sin (strip.angle : ℝ) * (d0 : ℝ)) =
    (((d0 + strip.start_distance - cs / 2 : ℚ) : ℝ), 0) := by
  have hD : (0 : ℝ) < (d0 : ℝ) := by exact_mod_cast hd0
  have hDne : ((d0 : ℝ)) ≠ 0 := ne_of_gt hD
  simp only [inverseCore]
  have hxrel : -(((strip.reference_x : ℝ) - Real.cos (strip.angle : ℝ) * (d0 : ℝ))
      - (strip.reference_x : ℝ)) = Real.cos (strip.angle : ℝ) * (d0 : ℝ) := by ring
  have hyrel : ((strip.reference_y : ℝ) - Real.sin (strip.angle : ℝ) * (d0 : ℝ))
      - (strip.reference_y : ℝ) = -(Real.sin (strip.angle : ℝ) * (d0 : ℝ)) := by ring
  rw [hxrel, hyrel]
  have hsum : (Real.cos (strip.angle : ℝ) * (d0 : ℝ)) ^ 2 +
      (-(Real.sin (strip.angle : ℝ) * (d0 : ℝ))) ^ 2 = ((d0 : ℝ)) ^ 2 := by
    have h := Real.sin_sq_add_cos_sq ((strip.angle : ℚ) : ℝ)
    linear_combination ((d0 : ℝ)) ^ 2 * h
  rw [hsum, Real.sqrt_sq hD.le, if_neg hDne, if_neg hDne, neg_neg,
    mul_div_cancel_right₀ (Real.cos (strip.angle : ℝ)) hDne,
    mul_div_cancel_right₀ (Real.sin (strip.angle : ℝ)) hDne]
  have h1 : Real.cos (strip.angle : ℝ) * Real.cos (strip.angle : ℝ) +
      Real.sin (strip.angle : ℝ) * Real.sin (strip.angle : ℝ) = 1 := by
    have h := Real.sin_sq_add_cos_sq ((strip.angle : ℚ) : ℝ)
    linear_combination h
  have h2 : Real.sin (strip.angle : ℝ) * Real.cos (strip.angle : ℝ) -
      Real.cos (strip.angle : ℝ) * Real.sin (strip.angle : ℝ) = 0 := by ring
  rw [h1, h2]
  simp only [Prod.mk.injEq]
  constructor
  · push_cast
    ring
  · ring

theorem inverseCore_on_ray_neg (strip : StripInfo) (cs d0 : ℚ) (hd0 : d0 < 0) :
    inverseCore strip cs
      ((strip.reference_x : ℝ) - Real.cos (strip.angle : ℝ) * (d0 : ℝ))
      ((strip.reference_y : ℝ) - Real.sin (strip.angle : ℝ) * (d0 : ℝ)) =
    (((d0 - strip.start_distance + cs / 2 : ℚ) : ℝ), 0) := by
  have hD : ((d0 : ℝ)) < 0 := by exact_mod_cast hd0
  have hDne : ((d0 : ℝ)) ≠ 0 := ne_of_lt hD
  simp only [inverseCore]
  have hxrel : -(((strip.reference_x : ℝ) - Real.cos (strip.angle : ℝ) * (d0 : ℝ))
      - (strip.reference_x : ℝ)) = Real.cos (strip.angle : ℝ) * (d0 : ℝ) := by ring
  have hyrel : ((strip.reference_y : ℝ) - Real.sin (strip.angle : ℝ) * (d0 : ℝ))
      - (strip.reference_y : ℝ) = -(Real.sin (strip.angle : ℝ) * (d0 : ℝ)) := by ring
  rw [hxrel, hyrel]
  have hsum : (Real.cos (strip.angle : ℝ) * (d0 : ℝ)) ^ 2 +
      (-(Real.sin (strip.angle : ℝ) * (d0 : ℝ))) ^ 2 = ((d0 : ℝ)) ^ 2 := by
    have h := Real.sin_sq_add_cos_sq ((strip.angle : ℚ) : ℝ)
    linear_combination ((d0 : ℝ)) ^ 2 * h
  have habs : Real.sqrt (((d0 : ℝ)) ^ 2) = -((d0 : ℝ)) := by
    rw [Real.sqrt_sq_eq_abs, abs_of_neg hD]
  have hnegne : -((d0 : ℝ)) ≠ 0 := neg_ne_zero.2 hDne
  rw [hsum, habs, if_neg hnegne, if_neg hnegne, neg_neg, div_neg, div_neg,
    mul_div_cancel_right₀ (Real.cos (strip.angle : ℝ)) hDne,
    mul_div_cancel_right₀ (Real.sin (strip.angle : ℝ)) hDne]
  have h1 : -Real.cos (strip.angle : ℝ) * Real.cos (strip.angle : ℝ) +
      -Real.sin (strip.angle : ℝ) * Real.sin (strip.angle : ℝ) = -1 := by
    have h := Real.sin_sq_add_cos_sq ((strip.angle : ℚ) : ℝ)
    linear_combination -h
  have h2 : -Real.sin (strip.angle : ℝ) * Real.cos (strip.angle : ℝ) -
      -Real.cos (strip.angle : ℝ) * Real.sin (strip.angle : ℝ) = 0 := by ring
  rw [h1, h2]
  simp only [Prod.mk.injEq]
  constructor
  · push_cast
    ring
  · ring

theorem to_data_coords_eq_of_core (strip : StripInfo) (cs : ℚ) (x y : ℝ)
    (w : ℚ) (hcs : 0 < cs)
    (hcore : inverseCore strip cs x y = ((w : ℝ), 0)) :
    to_data_coords strip cs x y =
      (if listMin (cell_positions strip.ti_fractions.length cs) < w ∧
          w < listMax (cell_positions strip.ti_fractions.length cs)
       then some
         (((interp w (cell_positions strip.ti_fractions.length cs)
            strip.ti_fractions : ℚ) : ℝ),
          strip.temperature, strip.annealing_time, strip.thickness)
       else none) := by
  rw [to_data_coords]
  simp only [hcore]
  by_cases hg : listMin (cell_positions strip.ti_fractions.length cs) < w ∧
      w < listMax (cell_positions strip.ti_fractions.length cs)
  · have hgR : ((listMin (cell_positions strip.ti_fractions.length cs) : ℚ) : ℝ) < (w : ℝ) ∧
        (w : ℝ) < ((listMax (cell_positions strip.ti_fractions.length cs) : ℚ) : ℝ) := by
      exact_mod_cast hg
    have hcsR : (0 : ℝ) < (cs : ℝ) := by exact_mod_cast hcs
    rw [if_neg (not_not_intro hgR), if_neg (not_not_intro ⟨by linarith, by linarith⟩),
      if_pos hg, interp_ratCast]
  · have hgR : ¬ (((listMin (cell_positions strip.ti_fractions.length cs) : ℚ) : ℝ) < (w : ℝ) ∧
        (w : ℝ) < ((listMax (cell_positions strip.ti_fractions.length cs) : ℚ) : ℝ)) := by
      exact_mod_cast hg
    rw [if_pos hgR, if_neg hg]

theorem to_bl_coords_eq (strip : StripInfo) (cs Ti : ℚ)
    (hlo : strip.ti_min ≤ Ti) (hhi : Ti ≤ strip.ti_max) :
    to_bl_coords strip cs Ti (strip.temperature : ℚ) (strip.annealing_time : ℚ)
        (strip.thickness : ℚ) =
      some ((strip.reference_x : ℝ) - Real.cos (strip.angle : ℝ) *
          ((interp Ti strip.ti_fractions
              (cell_positions strip.ti_fractions.length cs)
            - strip.start_distance + cs / 2 : ℚ) : ℝ),
        (strip.reference_y : ℝ) - Real.sin (strip.angle : ℝ) *
          ((interp Ti strip.ti_fractions
              (cell_positions strip.ti_fractions.length cs)
            - strip.start_distance + cs / 2 : ℚ) : ℝ)) := by
  have hkey : ¬ ((strip.temperature : ℚ) ≠ (strip.temperature : ℚ) ∨
      (strip.annealing_time : ℚ) ≠ (strip.annealing_time : ℚ) ∨
      (strip.thickness : ℚ) ≠ (strip.thickness : ℚ)) := by
    push_neg
    exact ⟨rfl, rfl, rfl⟩
  have hrange : ¬ (Ti > listMax strip.ti_fractions ∨
      Ti < listMin strip.ti_fractions) := by
    push_neg
    rw [StripInfo.ti_max] at hhi
    rw [StripInfo.ti_min] at hlo
    exact ⟨hhi, hlo⟩
  rw [to_bl_coords, if_neg hkey, if_neg hrange]

/-- C3 (amended): for a Region with strictly increasing `ti_fractions`,
a point with the Region's own key and `ti` strictly inside
`(ti_min, ti_max)` whose along-strip coordinate is positive (the
interpolated cell position plus half a cell exceeds `start_distance` —
i.e. the point lies on the indexed side of the reference point) round
trips exactly: `inverse (forward p) = p`.  The perpendicular offset of
a forward image is `0`, strictly inside the band.  Without the
positivity hypothesis the round trip can fail (see the
counterexample). -/
theorem C3_interior_roundtrip (strip : StripInfo) (cs Ti : ℚ)
    (hcs : 0 < cs)
    (hmono : List.Chain' (· < ·) strip.ti_fractions)
    (hlo : strip.ti_min < Ti) (hhi : Ti < strip.ti_max)
    (hpos : strip.start_distance < interp Ti strip.ti_fractions
      (cell_positions strip.ti_fractions.length cs) + cs / 2) :
    (to_bl_coords strip cs Ti (strip.temperature : ℚ) (strip.annealing_time : ℚ)
        (strip.thickness : ℚ)).bind
      (fun p => to_data_coords strip cs p.1 p.2) =
    some ((Ti : ℝ), strip.temperature, strip.annealing_time, strip.thickness) := by
  obtain ⟨f, fs, hfr⟩ : ∃ f fs, strip.ti_fractions = f :: fs := by
    cases hfr : strip.ti_fractions with
    | nil =>
      exfalso
      rw [StripInfo.ti_min, hfr] at hlo
      rw [StripInfo.ti_max, hfr] at hhi
      rw [listMin] at hlo
      rw [listMax] at hhi
      linarith
    | cons f fs => exact ⟨f, fs, rfl⟩
  have hmono' : List.Chain' (· < ·) (f :: fs) := by rw [← hfr]; exact hmono
  have hlof : f < Ti := by
    rw [StripInfo.ti_min, hfr, listMin_eq_head f fs hmono'] at hlo
    exact hlo
  have hhif : Ti < fs.getLastD f := by
    rw [StripInfo.ti_max, hfr, listMax_eq_getLastD fs f hmono'] at hhi
    exact hhi
  -- the cell-position table for this strip
  have hlenfr : strip.ti_fractions.length = fs.length + 1 := by rw [hfr]; rfl
  set tail : List ℚ :=
    (List.range fs.length).map (fun (i : ℕ) => ((i : ℚ) + 1) * cs) with htail
  have hcpos : cell_positions strip.ti_fractions.length cs = 0 :: tail := by
    rw [hlenfr, cell_positions_succ]
  have hcpos2 : cell_positions (f :: fs).length cs = 0 :: tail := by
    rw [List.length_cons, cell_positions_succ]
  have hchain0 : List.Chain' (· < ·) (0 :: tail) := by
    rw [← hcpos, ]
    exact cell_positions_chain _ cs hcs
  have hlentail : fs.length = tail.length := by
    rw [htail, List.length_map, List.length_range]
  -- the interpolated along-strip cell position
  set w : ℚ := interp Ti strip.ti_fractions
    (cell_positions strip.ti_fractions.length cs) with hw
  have hwfs : w = interp Ti (f :: fs) (0 :: tail) := by
    rw [hw, hfr, hcpos2]
  have hwlo : 0 < w ∧ w ≤ tail.getLastD 0 := by
    rw [hwfs]
    exact interp_lower fs tail f 0 Ti hmono' hchain0 hlentail hlof hhif.le
  have hwhi : 0 ≤ w ∧ w < tail.getLastD 0 := by
    rw [hwfs]
    exact interp_upper fs tail f 0 Ti hmono' hchain0 hlentail hlof.le hhif
  -- forward lands on the positive ray at distance d0 from the reference
  have hd0 : 0 < w - strip.start_distance + cs / 2 := by
    rw [hw]
    linarith
  have hcore := inverseCore_on_ray strip cs (w - strip.start_distance + cs / 2) hd0
  rw [show (w - strip.start_distance + cs / 2 + strip.start_distance - cs / 2 : ℚ)
      = w from by ring] at hcore
  rw [to_bl_coords_eq strip cs Ti hlo.le hhi.le, ← hw, Option.some_bind,
    to_data_coords_eq_of_core strip cs _ _ w hcs hcore]
  rw [hcpos, listMin_eq_head 0 tail hchain0, listMax_eq_getLastD tail 0 hchain0]
  rw [if_pos ⟨hwlo.1, hwhi.2⟩]
  rw [hfr, hwfs]
  rw [interp_roundtrip fs tail f 0 Ti hmono' hchain0 hlentail hlof.le hhif.le]

theorem C3_interior_roundtrip_witness :
    ((0 : ℚ) < 9/2 ∧ List.Chain' (· < ·) stripA.ti_fractions ∧
      stripA.ti_min < 15 ∧ (15 : ℚ) < stripA.ti_max ∧
      stripA.start_distance < interp 15 stripA.ti_fractions
        (cell_positions stripA.ti_fractions.length (9/2)) + (9/2)/2) ∧
    (to_bl_coords stripA (9/2) 15 (stripA.temperature : ℚ)
        (stripA.annealing_time : ℚ) (stripA.thickness : ℚ)).bind
      (fun p => to_data_coords stripA (9/2) p.1 p.2) =
    some (((15 : ℚ) : ℝ), stripA.temperature, stripA.annealing_time,
      stripA.thickness) := by
  have hr2 : List.range 2 = [0, 1] := rfl
  have h1 : (0 : ℚ) < 9/2 := by norm_num
  have h2 : List.Chain' (· < ·) stripA.ti_fractions := by
    norm_num [stripA, List.chain'_cons, List.chain'_singleton]
  have h3 : stripA.ti_min < 15 := by norm_num [stripA, StripInfo.ti_min, listMin]
  have h4 : (15 : ℚ) < stripA.ti_max := by
    norm_num [stripA, StripInfo.ti_max, listMax]
  have h5 : stripA.start_distance < interp 15 stripA.ti_fractions
      (cell_positions stripA.ti_fractions.length (9/2)) + (9/2)/2 := by
    norm_num [stripA, cell_positions, hr2, interp]
  exact ⟨⟨h1, h2, h3, h4, h5⟩,
    C3_interior_roundtrip stripA (9/2) 15 h1 h2 h3 h4 h5⟩

def stripCex : StripInfo := ⟨340, 450, [10, 20], 0, 0, 10, 0, 0⟩

/-- C3 counterexample: `stripCex` has strictly increasing fractions
`[10, 20]` and `start_distance = 10`; the request `Ti = 15` matches the
key and is strictly inside `(10, 20)`, and its forward image has
perpendicular offset `0`, strictly inside the band — yet
`inverse (forward p)` raises (`none`) instead of returning `p`, because
the along-strip coordinate `interp(15) - 10 + cell/2 = -11/2` is
negative (the cells sit on the other side of the reference point) and
the inverse recovers `d = -53/4`, outside `(0, 9/2)`. -/
theorem C3_interior_roundtrip_counterexample :
    (to_bl_coords stripCex (9/2) 15 (stripCex.temperature : ℚ)
        (stripCex.annealing_time : ℚ) (stripCex.thickness : ℚ)).bind
      (fun p => to_data_coords stripCex (9/2) p.1 p.2) = none := by
  have hr2 : List.range 2 = [0, 1] := rfl
  have hlo : stripCex.ti_min ≤ 15 := by
    norm_num [stripCex, StripInfo.ti_min, listMin]
  have hhi : (15 : ℚ) ≤ stripCex.ti_max := by
    norm_num [stripCex, StripInfo.ti_max, listMax]
  rw [to_bl_coords_eq stripCex (9/2) 15 hlo hhi]
  have hd0 : interp (15 : ℚ) stripCex.ti_fractions
      (cell_positions stripCex.ti_fractions.length (9/2))
      - stripCex.start_distance + (9/2)/2 = -11/2 := by
    norm_num [stripCex, cell_positions, hr2, interp]
  rw [hd0, Option.some_bind]
  have hcore := inverseCore_on_ray_neg stripCex (9/2) (-11/2) (by norm_num)
  rw [show ((-11/2 : ℚ) - stripCex.start_distance + 9/2/2 : ℚ) = -53/4 from by
    norm_num [stripCex]] at hcore
  rw [to_data_coords_eq_of_core stripCex (9/2) _ _ (-53/4) (by norm_num) hcore]
  rw [if_neg]
  intro hcon
  have hmin0 : listMin (cell_positions stripCex.ti_fractions.length (9/2)) = 0 := by
    norm_num [stripCex, cell_positions, hr2, listMin]
  rw [hmin0] at hcon
  have := hcon.1
  norm_num at this

/-- C10: for a Region with strictly increasing fractions and
`start_distance < cell_size / 2`, the boundary input `ti = ti_min` is
accepted by `forward` (the ti domain check is a closed-interval test),
but `inverse` applied to the resulting `(x, y)` raises: the recovered
along-strip distance is exactly the first cell position `0` and the
inverse's `np.min(cell_positions) < d` check is strict, so the round
trip fails at the ti-range boundary. -/
theorem C10_boundary_roundtrip_fails (strip : StripInfo) (cs : ℚ)
    (hcs : 0 < cs)
    (hmono : List.Chain' (· < ·) strip.ti_fractions)
    (hne : strip.ti_fractions ≠ [])
    (hsd : strip.start_distance < cs / 2) :
    (to_bl_coords strip cs strip.ti_min (strip.temperature : ℚ)
        (strip.annealing_time : ℚ) (strip.thickness : ℚ)).isSome ∧
    (to_bl_coords strip cs strip.ti_min (strip.temperature : ℚ)
        (strip.annealing_time : ℚ) (strip.thickness : ℚ)).bind
      (fun p => to_data_coords strip cs p.1 p.2) = none := by
  obtain ⟨f, fs, hfr⟩ : ∃ f fs, strip.ti_fractions = f :: fs := by
    cases hf : strip.ti_fractions with
    | nil => exact absurd hf hne
    | cons f fs => exact ⟨f, fs, rfl⟩
  have hmono' : List.Chain' (· < ·) (f :: fs) := by rw [← hfr]; exact hmono
  have hmin : strip.ti_min = f := by
    rw [StripInfo.ti_min, hfr, listMin_eq_head f fs hmono']
  have hminmax : strip.ti_min ≤ strip.ti_max := by
    rw [hmin, StripInfo.ti_max, hfr, listMax_eq_getLastD fs f hmono']
    exact chain_le_getLastD fs f hmono'
  constructor
  · exact (to_bl_coords_isSome_iff strip cs strip.ti_min _ _ _).2
      ⟨⟨rfl, rfl, rfl⟩, le_refl _, hminmax⟩
  · have hlenfr : strip.ti_fractions.length = fs.length + 1 := by rw [hfr]; rfl
    set tail : List ℚ :=
      (List.range fs.length).map (fun (i : ℕ) => ((i : ℚ) + 1) * cs) with htail
    have hcpos : cell_positions strip.ti_fractions.length cs = 0 :: tail := by
      rw [hlenfr, cell_positions_succ]
    have hchain0 : List.Chain' (· < ·) (0 :: tail) := by
      rw [← hcpos]
      exact cell_positions_chain _ cs hcs
    have hlentail : fs.length = tail.length := by
      rw [htail, List.length_map, List.length_range]
    have hcpos2 : cell_positions (f :: fs).length cs = 0 :: tail := by
      rw [List.length_cons, cell_positions_succ]
    have hinterp0 : interp strip.ti_min strip.ti_fractions
        (cell_positions strip.ti_fractions.length cs) = 0 := by
      rw [hmin, hfr, hcpos2]
      exact interp_head_le f f 0 fs tail hlentail (le_refl f)
    have hd0eq : interp strip.ti_min strip.ti_fractions
        (cell_positions strip.ti_fractions.length cs)
        - strip.start_distance + cs / 2 = cs / 2 - strip.start_distance := by
      rw [hinterp0]
      ring
    have hd0pos : (0 : ℚ) < cs / 2 - strip.start_distance := by linarith
    have hcore := inverseCore_on_ray strip cs (cs / 2 - strip.start_distance) hd0pos
    rw [show (cs / 2 - strip.start_distance + strip.start_distance - cs / 2 : ℚ)
        = 0 from by ring] at hcore
    rw [to_bl_coords_eq strip cs strip.ti_min (le_refl _) hminmax, hd0eq,
      Option.some_bind, to_data_coords_eq_of_core strip cs _ _ 0 hcs hcore]
    rw [if_neg]
    intro hcon
    rw [hcpos, listMin_eq_head 0 tail hchain0] at hcon
    exact absurd hcon.1 (lt_irrefl 0)

theorem C10_boundary_roundtrip_fails_witness :
    ((0 : ℚ) < 9/2 ∧ List.Chain' (· < ·) stripA.ti_fractions ∧
      stripA.ti_fractions ≠ [] ∧ stripA.start_distance < (9/2) / 2) ∧
    ((to_bl_coords stripA (9/2) stripA.ti_min (stripA.temperature : ℚ)
        (stripA.annealing_time : ℚ) (stripA.thickness : ℚ)).isSome ∧
     (to_bl_coords stripA (9/2) stripA.ti_min (stripA.temperature : ℚ)
        (stripA.annealing_time : ℚ) (stripA.thickness : ℚ)).bind
        (fun p => to_data_coords stripA (9/2) p.1 p.2) = none) := by
  have h1 : (0 : ℚ) < 9/2 := by norm_num
  have h2 : List.Chain' (· < ·) stripA.ti_fractions := by
    norm_num [stripA, List.chain'_cons, List.chain'_singleton]
  have h3 : stripA.ti_fractions ≠ [] := by simp [stripA]
  have h4 : stripA.start_distance < (9/2) / 2 := by norm_num [stripA]
  exact ⟨⟨h1, h2, h3, h4⟩,
    C10_boundary_roundtrip_fails stripA (9/2) h1 h2 h3 h4⟩
